import Mathlib

/-!
Verification of the s3-backup core (package `s3` and `config`) against its
natural-language specification.

The embedding models:
  * Go strings as byte lists (`Str`), faithful to Go's string-as-bytes model;
  * Go `error` values as an inductive `GoError` covering the three ways this
    code base builds errors: sentinel errors (`errors.New`), wrapping
    (`fmt.Errorf` with `%w`), and `errors.Join`;
  * `time.Time` as `GoTime`, a wall-clock instant carrying date-time fields
    down to seconds plus a nanosecond component (the timestamp format used by
    `buildObjectKey` reads only the whole-second fields);
  * the filesystem visible to `filepath.WalkDir` as a first-order forest
    (`Fs`) of named entries, where an entry may also be one whose access
    fails (modelling a `WalkDirFunc` invocation with a non-nil `err`);
  * context cancellation as a `Bool` (`true` = the context is already
    cancelled, i.e. `ctx.Done()` is closed / `ctx.Err() != nil`);
  * the external S3 client (`Service.client.PutObject`) as an oracle
    `PutCall → Option GoError`, and the sequence of successive `time.Now()`
    readings during a pass as `Sys.clock : Nat → GoTime`.

Functions are translated from `internal/s3/files.go`, the current
`internal/s3` service implementation (`Service`, with `sync.Once`-guarded
`Stop`), `internal/config/config.go` and `main.go`.
-/

set_option autoImplicit false

namespace S3Backup

/-- Go strings, as their byte sequences. Byte 47 is `/`, 45 is `-`, 84 is
`T`, 44 is `,`, 46 is `.`, 32 is space. -/
abbrev Str := List Nat

/-- Tags for the sentinel (leaf) errors that occur in the modelled code.
`other n` stands for an arbitrary distinct error produced by an external
collaborator (the S3 client or the OS). -/
inductive ErrTag where
  /-- `context.Canceled`, the value of `ctx.Err()` for a cancelled context. -/
  | ctxCanceled
  /-- `s3.ErrEmptyFilename`. -/
  | errEmptyFilename
  /-- `s3.ErrEmptyDirectory`. -/
  | errEmptyDirectory
  /-- `os.ErrNotExist`, reported by `filepath.WalkDir` when the root cannot
  be stat'ed. -/
  | errNotExist
  /-- The fresh error built by `Service.buildS3Key` when a file belongs to no
  configured backup directory. -/
  | errNotInBackupDir
  /-- An arbitrary error coming from an external collaborator. -/
  | other (n : Nat)
  deriving DecidableEq

/-- Go `error` values as this code base builds them.  `wrap op e` models
`fmt.Errorf("<op or message>: %w", e)` (the format text plays no role in
`errors.Is`, it is kept as a label); `join a b` models `errors.Join(a, b)`
with both arguments non-nil. -/
inductive GoError where
  | base (t : ErrTag)
  | wrap (op : String) (e : GoError)
  | join (a b : GoError)
  deriving DecidableEq

/-- The accumulation discipline of the source: `joinedErrs =
errors.Join(joinedErrs, err)` where `joinedErrs` starts as `nil` and `err`
is non-nil.  `errors.Join(nil, e)` yields a join node holding only `e`,
which is observationally `e` itself under `errors.Is` and under leaf
counting, so it is represented by `e`. -/
def joinOpt : Option GoError → GoError → Option GoError
  | none, e => some e
  | some a, e => some (.join a e)

/-- Go `errors.Is(err, target)`: identity at the current node, else unwrap
through `%w` wrapping and through each branch of a join. -/
def errorIs : GoError → GoError → Bool
  | e@(.base _), target => e == target
  | e@(.wrap _ inner), target => e == target || errorIs inner target
  | e@(.join a b), target => e == target || errorIs a target || errorIs b target

/-- The independent underlying failures inside an aggregate error: wrapping
is transparent, joins concatenate. This is what "inspection shows exactly
two failures" counts. -/
def leaves : GoError → List GoError
  | .base t => [.base t]
  | .wrap _ inner => leaves inner
  | .join a b => leaves a ++ leaves b

/-- `leaves` lifted to a nilable Go error. -/
def leavesOpt : Option GoError → List GoError
  | none => []
  | some e => leaves e

/-- `time.Time`: wall-clock fields down to seconds, plus nanoseconds.
`Format("2006-01-02T15-04-05")` reads only the six whole-second fields. -/
structure GoTime where
  year : Nat
  month : Nat
  day : Nat
  hour : Nat
  minute : Nat
  second : Nat
  nsec : Nat
  deriving DecidableEq

/-- Two-digit zero-padded decimal, as `time.Format` renders `01`, `02`,
`15`, `04`, `05` for field values below 100. -/
def pad2 (n : Nat) : Str := [48 + n / 10, 48 + n % 10]

/-- Four-digit zero-padded decimal, as `time.Format` renders `2006` for
years 0–9999. -/
def pad4 (n : Nat) : Str :=
  [48 + n / 1000, 48 + n / 100 % 10, 48 + n / 10 % 10, 48 + n % 10]

/-- `ts.Format("2006-01-02T15-04-05")` for field values in their rendering
range (year below 10000, other fields below 100). -/
def formatTs (t : GoTime) : Str :=
  pad4 t.year ++ [45] ++ pad2 t.month ++ [45] ++ pad2 t.day ++ [84] ++
    pad2 t.hour ++ [45] ++ pad2 t.minute ++ [45] ++ pad2 t.second

/-- `buildObjectKey` from `internal/s3/files.go`:
`fmt.Sprintf("%s/%s", ts.Format("2006-01-02T15-04-05"), fn)`. -/
def buildObjectKey (fn : Str) (ts : GoTime) : Str :=
  formatTs ts ++ [47] ++ fn

/-- `filepath.Base` for the path shapes that occur here: empty path gives
`.`, a path of only separators gives `/`, otherwise the last component
after stripping trailing separators. -/
def goBase (p : Str) : Str :=
  if p = [] then [46]
  else
    let q := p.reverse.dropWhile (fun c => c == 47)
    if q = [] then [47]
    else (q.takeWhile (fun c => c != 47)).reverse

/-- `filepath.Join(a, b)` for the cleaned inputs produced by this code,
including the effects of the `Clean` that `Join` runs on its result:
joining with `.` (the `filepath.Rel` result for identical paths) cleans
away, and joining onto the root `/` collapses the doubled separator
(`Join("/", b) = Clean("//b") = "/b"`); otherwise the separator is
inserted. -/
def pathJoin (a b : Str) : Str :=
  if b = [46] then a
  else if a = [47] then 47 :: b
  else a ++ 47 :: b

/-- The loop-body guard of `Service.buildS3Key`: `filepath.Rel(dir, f)`
combined with the `strings.HasPrefix(relPath, "..")` rejection, for cleaned
paths.  `Rel` yields `.` when the paths are equal and the suffix when `f`
lies under `dir` (for the root directory `/`, the suffix after the single
leading separator); a `Rel` error, and a relative path beginning with `..`
(e.g. an entry literally named `..foo` directly under `dir`), are skipped
by the source, modelled as `none`. -/
def goRel (dir f : Str) : Option Str :=
  if f = dir then some [46]
  else if dir = [47] then
    if [47].isPrefixOf f then
      if [46, 46].isPrefixOf (f.drop 1) then none else some (f.drop 1)
    else none
  else if (dir ++ [47]).isPrefixOf f then
    if [46, 46].isPrefixOf (f.drop (dir.length + 1)) then none
    else some (f.drop (dir.length + 1))
  else none

/-- One recorded call to the S3 client's `PutObject` (the `Bucket` and `Key`
fields of the `PutObjectInput`; the body is the opened file and plays no
role in the modelled control flow). -/
structure PutCall where
  bucket : Str
  key : Str
  deriving DecidableEq

/-- A directory's contents as seen by `filepath.WalkDir`, in traversal
order.  `bad name e` is an entry whose visit hands the walk function a
non-nil access error `e` (e.g. a permission failure). -/
inductive Fs where
  | done : Fs
  | file (name : Str) (rest : Fs) : Fs
  | bad (name : Str) (e : GoError) (rest : Fs) : Fs
  | dir (name : Str) (children : Fs) (rest : Fs) : Fs
  deriving DecidableEq

/-- What `os.Stat`/`WalkDir` finds at a configured root path: a regular
file, or a directory with contents. -/
inductive FsRoot where
  | file : FsRoot
  | dir (children : Fs) : FsRoot
  deriving DecidableEq

/-- The ambient world outside the `s3` package: the filesystem per root
path (`none` = stat fails with not-exist), the result of `os.Open` per file
path, and the successive readings of `time.Now()` during a pass (`clock i`
is the reading taken while processing the `i`-th file of the upload
phase). -/
structure Sys where
  fs : Str → Option FsRoot
  openErr : Str → Option GoError
  clock : Nat → GoTime

/-- `Service` from the s3 package: the immutable configuration plus the S3
client, which is modelled as an oracle from the `PutObject` input to its
error result. -/
structure Service where
  client : PutCall → Option GoError
  bucketName : Str
  backupDirs : List Str
  recursive : Bool
  cronSchedule : Str

/-- The body of `fileCollector.walk` driven by `filepath.WalkDir` over the
entries of one directory, specialised to the collector of
`collectFilesFromDir`: context is checked first at every entry; an entry
with an access error aborts the walk with a wrapped error; a subdirectory
is skipped (`fs.SkipDir`) when recursion is off and its path differs from
the walk root, and descended into otherwise; a regular file's full path is
appended to the collected list. -/
def walkFs (ctx recursive : Bool) (rootDir : Str) : Str → List Str → Fs →
    Except GoError (List Str)
  | _, acc, .done => .ok acc
  | p, acc, .file n rest =>
    if ctx then .error (.wrap "s3.fileCollector.walk" (.base .ctxCanceled))
    else walkFs ctx recursive rootDir p (acc ++ [pathJoin p n]) rest
  | _, _, .bad _ e _ =>
    if ctx then .error (.wrap "s3.fileCollector.walk" (.base .ctxCanceled))
    else .error (.wrap "s3.fileCollector.walk: error accessing path" e)
  | p, acc, .dir n children rest =>
    if ctx then .error (.wrap "s3.fileCollector.walk" (.base .ctxCanceled))
    else
      let q := pathJoin p n
      if !recursive && q ≠ rootDir then
        walkFs ctx recursive rootDir p acc rest
      else
        match walkFs ctx recursive rootDir q acc children with
        | .error e => .error e
        | .ok acc' => walkFs ctx recursive rootDir p acc' rest

/-- `filepath.WalkDir(dir, collector.walk)`.  The walk function is first
invoked on the root itself: if the root cannot be stat'ed it receives the
stat error (after the context check); a root that is a regular file is
collected itself; a root directory is descended into (the non-recursive
skip does not apply to the root, whose path equals `fc.dir`). -/
def goWalkDir (sys : Sys) (ctx recursive : Bool) (dir : Str) :
    Except GoError (List Str) :=
  match sys.fs dir with
  | none =>
    if ctx then .error (.wrap "s3.fileCollector.walk" (.base .ctxCanceled))
    else .error (.wrap "s3.fileCollector.walk: error accessing path" (.base .errNotExist))
  | some .file =>
    if ctx then .error (.wrap "s3.fileCollector.walk" (.base .ctxCanceled))
    else .ok [dir]
  | some (.dir children) =>
    if ctx then .error (.wrap "s3.fileCollector.walk" (.base .ctxCanceled))
    else walkFs ctx recursive dir dir [] children

/-- `Service.collectFilesFromDir` from `internal/s3/files.go`: an empty
path is rejected with `ErrEmptyDirectory`; a walk error is wrapped and
returned with a nil file list; otherwise the collector's files. -/
def collectFilesFromDir (sys : Sys) (ctx : Bool) (dir : Str) (recursive : Bool) :
    Except GoError (List Str) :=
  if dir = [] then .error (.wrap "s3.Service.collectFilesFromDir" (.base .errEmptyDirectory))
  else
    match goWalkDir sys ctx recursive dir with
    | .error e => .error (.wrap "s3.Service.collectFilesFromDir: failed to walk directory" e)
    | .ok files => .ok files

/-- The directory loop of `Service.collectAllFiles`: before each directory
the context is checked (a cancelled context returns a nil file list and the
wrapped `ctx.Err()` immediately); a directory's collection error is joined
into the accumulator and the loop continues; collected files are appended.
After the loop, a non-nil accumulator is wrapped into the aggregate
collection error. -/
def collectLoop (sys : Sys) (ctx recursive : Bool) :
    List Str → List Str → Option GoError → List Str × Option GoError
  | [], acc, joined =>
    (acc, joined.map (.wrap "s3.Service.collectAllFiles: encountered error(s) when attempting to collect files to backup"))
  | d :: ds, acc, joined =>
    if ctx then ([], some (.wrap "s3.Service.collectAllFiles" (.base .ctxCanceled)))
    else
      match collectFilesFromDir sys ctx d recursive with
      | .error e => collectLoop sys ctx recursive ds acc (joinOpt joined e)
      | .ok files => collectLoop sys ctx recursive ds (acc ++ files) joined

/-- `Service.collectAllFiles` from `internal/s3/files.go`. -/
def collectAllFiles (sys : Sys) (svc : Service) (ctx : Bool) :
    List Str × Option GoError :=
  collectLoop sys ctx svc.recursive svc.backupDirs [] none

/-- The directory-matching loop of `Service.buildS3Key`: the first
configured directory for which `filepath.Rel` yields a usable relative path
wins, and the key is `filepath.Join(filepath.Base(dir), relPath)`; if no
directory matches, the file-does-not-belong error is returned. -/
def buildS3KeyLoop (f : Str) : List Str → Except GoError Str
  | [] => .error (.base .errNotInBackupDir)
  | d :: ds =>
    match goRel d f with
    | some rel => .ok (pathJoin (goBase d) rel)
    | none => buildS3KeyLoop f ds

/-- `Service.buildS3Key` from the s3 service implementation. -/
def buildS3Key (svc : Service) (f : Str) : Except GoError Str :=
  buildS3KeyLoop f svc.backupDirs

/-- `Service.backupFile`: empty filename is rejected; the file is opened
(`os.Open`); the S3 key is derived by `buildS3Key` and stamped by
`buildObjectKey` with a `time.Now()` reading taken inside this call; then
the client's `PutObject` is invoked.  The returned trace lists the
`PutObject` calls made (zero or one). -/
def backupFile (sys : Sys) (svc : Service) (f : Str) (t : GoTime) :
    List PutCall × Option GoError :=
  if f = [] then ([], some (.wrap "s3.Service.backupFile" (.base .errEmptyFilename)))
  else
    match sys.openErr f with
    | some e => ([], some (.wrap "s3.Service.backupFile: failed to open file" e))
    | none =>
      match buildS3Key svc f with
      | .error e => ([], some (.wrap "s3.Service.backupFile" e))
      | .ok s3Key =>
        let key := buildObjectKey s3Key t
        let call : PutCall := ⟨svc.bucketName, key⟩
        match svc.client call with
        | some e => ([call], some (.wrap "s3.Service.backupFile: failed to put object to S3" e))
        | none => ([call], none)

/-- The file loop of `Service.backupAllFiles`: before each file the context
is checked (a cancelled context returns the wrapped `ctx.Err()`
immediately, abandoning the joined errors so far, as the source's early
`return` does); per-file errors are joined and the loop continues.  After
the loop, a non-nil accumulator is wrapped into the
one-or-more-files-failed aggregate. -/
def backupLoop (sys : Sys) (svc : Service) (ctx : Bool) :
    List Str → Nat → Option GoError → List PutCall → List PutCall × Option GoError
  | [], _, joined, calls =>
    (calls, joined.map (.wrap "s3.Service.backupAllFiles: one or more files failed to backup"))
  | f :: fs, i, joined, calls =>
    if ctx then (calls, some (.wrap "s3.Service.backupAllFiles" (.base .ctxCanceled)))
    else
      match backupFile sys svc f (sys.clock i) with
      | (newCalls, some e) => backupLoop sys svc ctx fs (i + 1) (joinOpt joined e) (calls ++ newCalls)
      | (newCalls, none) => backupLoop sys svc ctx fs (i + 1) joined (calls ++ newCalls)

/-- `Service.backupAllFiles`: an empty file list succeeds immediately. -/
def backupAllFiles (sys : Sys) (svc : Service) (ctx : Bool) (files : List Str) :
    List PutCall × Option GoError :=
  if files.isEmpty then ([], none)
  else backupLoop sys svc ctx files 0 none []

/-- `Service.Backup`: collect, and if collection reported any error return
it wrapped — without entering the upload phase; otherwise upload all
collected files and wrap any aggregate upload error. -/
def Backup (sys : Sys) (svc : Service) (ctx : Bool) :
    List PutCall × Option GoError :=
  match collectAllFiles sys svc ctx with
  | (_, some e) => ([], some (.wrap "s3.Service.Backup: failed to collect files" e))
  | (files, none) =>
    let r := backupAllFiles sys svc ctx files
    (r.1, r.2.map (.wrap "s3.Service.Backup"))

/-! Configuration (`internal/config`) and the branch taken by `main`. -/

/-- `config.DefaultCronSchedule = "0 0 */3 * *"` (every 3 days). -/
def DefaultCronSchedule : Str := [48, 32, 48, 32, 42, 47, 51, 32, 42, 32, 42]

/-- `config.Config`: the application configuration (the YAML tags and the
embedded lock play no role in the modelled logic). -/
structure Config where
  BackupDirs : List Str
  Recursive : Bool
  CronSchedule : Str
  AWSRegion : Str
  S3Bucket : Str

/-- `Config.GetCronSchedule` from `internal/config/config.go`: returns
`DefaultCronSchedule` when no schedule is configured. -/
def Config.GetCronSchedule (c : Config) : Str :=
  if c.CronSchedule = [] then DefaultCronSchedule else c.CronSchedule

/-- The branch condition in `main.go` (`if cfg.GetCronSchedule() != ""`):
`true` enters the scheduler (`s3Service.Start`), `false` runs the one-time
backup. -/
def mainRunsScheduler (cfg : Config) : Bool :=
  !cfg.GetCronSchedule.isEmpty

/-- Go's ASCII whitespace bytes as trimmed by `strings.TrimSpace` (the
Unicode cases beyond ASCII do not occur in byte-per-byte path data). -/
def isSpaceByte (c : Nat) : Bool :=
  c == 32 || c == 9 || c == 10 || c == 11 || c == 12 || c == 13

/-- `strings.TrimSpace`. -/
def trimSpace (l : Str) : Str :=
  ((l.dropWhile isSpaceByte).reverse.dropWhile isSpaceByte).reverse

/-- `config.parseCommaSeparated`: split on commas, trim whitespace, drop
empty parts, keep everything else in order. -/
def parseCommaSeparated (value : Str) : List Str :=
  (value.splitOn 44).foldl
    (fun acc part =>
      let trimmed := trimSpace part
      if trimmed = [] then acc else acc ++ [trimmed]) []

/-! Lifecycle: `Service.Stop` (a `sync.Once`-guarded `close(s.stopCh)`) and
the stop-signal wait in `Service.Start`.  `sync.Once.Do` makes the guarded
body run at most once even under concurrent callers, so any sequence of
`Stop` calls is modelled as sequential steps on the lifecycle state. -/

/-- The mutable lifecycle state of a `Service`: whether `stopCh` has been
closed, whether `stopOnce` has fired, and how many times `close` has
actually executed on the channel. -/
structure Lifecycle where
  stopClosed : Bool
  onceDone : Bool
  closeCount : Nat
  deriving DecidableEq

/-- The lifecycle state of a freshly constructed `Service`
(`stopCh: make(chan struct{})`, `stopOnce` unfired). -/
def newLifecycle : Lifecycle := ⟨false, false, 0⟩

/-- Go `close` on a channel: panics (`none`) on an already-closed channel,
otherwise closes it. -/
def closeChan (l : Lifecycle) : Option Lifecycle :=
  if l.stopClosed then none
  else some { l with stopClosed := true, closeCount := l.closeCount + 1 }

/-- `Service.Stop`: `s.stopOnce.Do(func() { close(s.stopCh) })` — a no-op
once the `Once` has fired. -/
def Stop (l : Lifecycle) : Option Lifecycle :=
  if l.onceDone then some l
  else (closeChan l).map (fun l' => { l' with onceDone := true })

/-- `n` successive `Stop` calls from the fresh state; `none` means some
call panicked. -/
def stopN : Nat → Option Lifecycle
  | 0 => some newLifecycle
  | n + 1 => (stopN n).bind Stop

/-- The blocking wait in `Service.Start` (`select { case <-s.stopCh: ... }`
followed by `return nil`): `some none` means `Start` returns with a nil
error; `none` means it is still blocked. -/
def startAwaitStop (l : Lifecycle) : Option (Option GoError) :=
  if l.stopClosed then some none else none

/-! Spec-side predicates, written from the specification's words, to be
compared with what the source-derived functions produce. -/

/-- An ASCII decimal digit byte. -/
def isDigitByte (b : Nat) : Bool :=
  decide (48 ≤ b ∧ b ≤ 57)

/-- The specification's timestamp shape, `YYYY-MM-DDTHH-MM-SS`: fixed
width 19, hyphens separating the date components and the time components,
a `T` between them, decimal digits everywhere else — in particular no
colons. -/
def specTimestampShape : Str → Bool
  | [y1, y2, y3, y4, h1, m1, m2, h2, d1, d2, tc, o1, o2, h3, n1, n2, h4, s1, s2] =>
    isDigitByte y1 && isDigitByte y2 && isDigitByte y3 && isDigitByte y4 &&
      h1 == 45 && isDigitByte m1 && isDigitByte m2 && h2 == 45 &&
      isDigitByte d1 && isDigitByte d2 && tc == 84 &&
      isDigitByte o1 && isDigitByte o2 && h3 == 45 &&
      isDigitByte n1 && isDigitByte n2 && h4 == 45 &&
      isDigitByte s1 && isDigitByte s2
  | _ => false

/-- The field ranges in which `time.Format("2006-01-02T15-04-05")` renders
each component at its fixed width (Go's normalised `time.Time` always
satisfies the much tighter calendar bounds). -/
def boundedTime (t : GoTime) : Prop :=
  t.year < 10000 ∧ t.month < 100 ∧ t.day < 100 ∧ t.hour < 100 ∧
    t.minute < 100 ∧ t.second < 100

instance (t : GoTime) : Decidable (boundedTime t) := by
  unfold boundedTime; infer_instance

/-- Two wall-clock instants agree at second granularity: all fields the
timestamp format renders are equal (the nanosecond component may differ). -/
def sameSecond (t1 t2 : GoTime) : Prop :=
  t1.year = t2.year ∧ t1.month = t2.month ∧ t1.day = t2.day ∧
    t1.hour = t2.hour ∧ t1.minute = t2.minute ∧ t1.second = t2.second

instance (t1 t2 : GoTime) : Decidable (sameSecond t1 t2) := by
  unfold sameSecond; infer_instance

/-- Whether a directory's contents contain an entry whose access fails,
anywhere in the forest. -/
def hasBad : Fs → Bool
  | .done => false
  | .file _ rest => hasBad rest
  | .bad _ _ _ => true
  | .dir _ children rest => hasBad children || hasBad rest

/-! Helper lemmas shared by the claim theorems. -/

/-- Every leaf of an aggregate error is found by `errors.Is`. -/
theorem errorIs_of_mem_leaves (e x : GoError) (h : x ∈ leaves e) :
    errorIs e x = true := by
  induction e with
  | base t =>
    simp [leaves] at h
    simp [errorIs, h]
  | wrap op inner ih =>
    simp [leaves] at h
    simp [errorIs, ih h]
  | join a b iha ihb =>
    simp [leaves] at h
    rcases h with h | h
    · simp [errorIs, iha h]
    · simp [errorIs, ihb h]

/-- Joining one more error appends its leaves. -/
theorem leavesOpt_joinOpt (j : Option GoError) (e : GoError) :
    leavesOpt (joinOpt j e) = leavesOpt j ++ leaves e := by
  cases j <;> simp [joinOpt, leavesOpt, leaves]

/-- Membership in a join is preserved by `errors.Is` from either side. -/
theorem errorIs_joinOpt (j : Option GoError) (e target : GoError)
    (h : errorIs e target = true) :
    ∀ E, joinOpt j e = some E → errorIs E target = true := by
  intro E hE
  cases j with
  | none => simp [joinOpt] at hE; subst hE; exact h
  | some a =>
    simp [joinOpt] at hE
    subst hE
    simp [errorIs, h]

/-- Membership established in the accumulator survives joining one more
error. -/
theorem errorIs_joinOpt_left (j e target : GoError)
    (h : errorIs j target = true) :
    ∀ E, joinOpt (some j) e = some E → errorIs E target = true := by
  intro E hE
  simp [joinOpt] at hE
  subst hE
  simp [errorIs, h]

/-- `errors.Join` with a non-nil second argument is never nil. -/
theorem joinOpt_isSome (j : Option GoError) (e : GoError) :
    ∃ E, joinOpt j e = some E := by
  cases j <;> exact ⟨_, rfl⟩

/-- The rendered timestamp, component by component. -/
theorem formatTs_explicit (t : GoTime) :
    formatTs t =
      [48 + t.year / 1000, 48 + t.year / 100 % 10, 48 + t.year / 10 % 10, 48 + t.year % 10,
        45, 48 + t.month / 10, 48 + t.month % 10,
        45, 48 + t.day / 10, 48 + t.day % 10,
        84, 48 + t.hour / 10, 48 + t.hour % 10,
        45, 48 + t.minute / 10, 48 + t.minute % 10,
        45, 48 + t.second / 10, 48 + t.second % 10] := rfl

/-- The rendered timestamp always has the fixed width 19. -/
theorem formatTs_length (t : GoTime) : (formatTs t).length = 19 := rfl

/-- No slash occurs in a rendered timestamp (digits are 48–57, the other
bytes are `-` and `T`). -/
theorem slash_not_mem_formatTs (t : GoTime) : 47 ∉ formatTs t := by
  rw [formatTs_explicit]
  intro h
  simp only [List.mem_cons, List.not_mem_nil, or_false] at h
  omega

/-- Splitting a byte string at a slash that is known not to occur in either
prefix identifies the prefixes and the suffixes. -/
theorem append_slash_inj (a b x y : Str)
    (ha : 47 ∉ a) (hb : 47 ∉ b)
    (h : a ++ 47 :: x = b ++ 47 :: y) : a = b ∧ x = y := by
  induction a generalizing b with
  | nil =>
    cases b with
    | nil => simpa using h
    | cons c b' =>
      simp only [List.nil_append, List.cons_append, List.cons.injEq] at h
      exact absurd (h.1 ▸ List.mem_cons_self c b') (fun hm => hb (h.1 ▸ hm))
  | cons c a' ih =>
    cases b with
    | nil =>
      simp only [List.cons_append, List.nil_append, List.cons.injEq] at h
      exact absurd h.1 (fun hc => ha (hc ▸ List.mem_cons_self c a'))
    | cons c' b' =>
      simp only [List.cons_append, List.cons.injEq] at h
      have := ih b' (fun hm => ha (List.mem_cons_of_mem c hm))
        (fun hm => hb (List.mem_cons_of_mem c' hm)) h.2
      exact ⟨by rw [h.1, this.1], this.2⟩

/-- On bounded fields, the rendering of the timestamp is injective at
second granularity. -/
theorem formatTs_inj (t1 t2 : GoTime) (h1 : boundedTime t1) (h2 : boundedTime t2)
    (h : formatTs t1 = formatTs t2) : sameSecond t1 t2 := by
  rw [formatTs_explicit, formatTs_explicit] at h
  simp only [List.cons.injEq, and_true] at h
  obtain ⟨hy1, hy2, hy3, hy4, hmo1, hmo2, hd1, hd2, hh1, hh2, hmi1, hmi2, hs1, hs2⟩ := h
  obtain ⟨by1, bm1, bd1, bh1, bmi1, bs1⟩ := h1
  obtain ⟨by2, bm2, bd2, bh2, bmi2, bs2⟩ := h2
  refine ⟨?_, ?_, ?_, ?_, ?_, ?_⟩ <;> omega

/-- On bounded fields, the rendered timestamp matches the specification's
`YYYY-MM-DDTHH-MM-SS` shape. -/
theorem specTimestampShape_formatTs (t : GoTime) (h : boundedTime t) :
    specTimestampShape (formatTs t) = true := by
  obtain ⟨hy, hm, hd, hh, hmi, hs⟩ := h
  rw [formatTs_explicit]
  simp only [specTimestampShape, isDigitByte, Bool.and_eq_true, decide_eq_true_eq,
    beq_iff_eq, and_true, true_and]
  omega

/-- Claim C7 counterexample: two `time.Time` values that differ only in
their nanosecond component are distinct inputs, yet `buildObjectKey`
produces the same key for them, so "keys are equal iff both the timestamp
and the relative path match exactly" fails. -/
theorem buildObjectKey_subsecond_collision :
    buildObjectKey [97] ⟨2025, 1, 2, 3, 4, 5, 0⟩ =
        buildObjectKey [97] ⟨2025, 1, 2, 3, 4, 5, 999⟩ ∧
      (⟨2025, 1, 2, 3, 4, 5, 0⟩ : GoTime) ≠ ⟨2025, 1, 2, 3, 4, 5, 999⟩ := by
  constructor
  · rfl
  · decide

/-- Claim C7 (amended): for timestamps whose fields are in rendering range,
two `buildObjectKey` calls produce the same key iff the relative-path
arguments match exactly and the timestamp arguments match at second
granularity (the granularity the key format renders); the nanosecond
component of `time.Time` is not part of the key. -/
theorem buildObjectKey_inj_iff (fn1 fn2 : Str) (t1 t2 : GoTime)
    (h1 : boundedTime t1) (h2 : boundedTime t2) :
    buildObjectKey fn1 t1 = buildObjectKey fn2 t2 ↔ fn1 = fn2 ∧ sameSecond t1 t2 := by
  constructor
  · intro h
    have hsplit : formatTs t1 = formatTs t2 ∧ fn1 = fn2 := by
      apply append_slash_inj _ _ _ _ (slash_not_mem_formatTs t1) (slash_not_mem_formatTs t2)
      simpa [buildObjectKey] using h
    exact ⟨hsplit.2, formatTs_inj t1 t2 h1 h2 hsplit.1⟩
  · rintro ⟨hfn, hsec⟩
    obtain ⟨y1, mo1, d1, hh1, mi1, s1, ns1⟩ := t1
    obtain ⟨y2, mo2, d2, hh2, mi2, s2, ns2⟩ := t2
    obtain ⟨ey, emo, ed, eh, emi, es⟩ := hsec
    simp only at ey emo ed eh emi es
    subst hfn ey emo ed eh emi es
    rfl

/-- Claim C7 (amended) witness at concrete inputs: same path, same second,
different nanoseconds — the key equality holds and the amended criterion
agrees. -/
theorem buildObjectKey_inj_iff_witness :
    buildObjectKey [97, 47, 98] ⟨2025, 12, 15, 10, 30, 45, 1⟩ =
        buildObjectKey [97, 47, 98] ⟨2025, 12, 15, 10, 30, 45, 2⟩ ↔
      [97, 47, 98] = [97, 47, 98] ∧
        sameSecond ⟨2025, 12, 15, 10, 30, 45, 1⟩ ⟨2025, 12, 15, 10, 30, 45, 2⟩ :=
  buildObjectKey_inj_iff [97, 47, 98] [97, 47, 98] _ _ (by decide) (by decide)

/-- Claim C3 (code bug in the source): with an empty/absent schedule
expression, `Config.GetCronSchedule` substitutes the non-empty
`DefaultCronSchedule`, so `main`'s branch condition
`cfg.GetCronSchedule() != ""` is satisfied and the program enters the
recurring scheduler — `main.go`'s "one-time backup" else-branch is
unreachable, contradicting the claim (and the repository's own README,
whose quick-start runs a one-time backup with no schedule configured). -/
theorem getCronSchedule_empty_enters_scheduler (cfg : Config)
    (h : cfg.CronSchedule = []) :
    cfg.GetCronSchedule = DefaultCronSchedule ∧ mainRunsScheduler cfg = true := by
  constructor
  · simp [Config.GetCronSchedule, h]
  · simp [mainRunsScheduler, Config.GetCronSchedule, h]
    decide

/-- Claim C3 witness: a concrete configuration with no schedule set. -/
theorem getCronSchedule_empty_enters_scheduler_witness :
    (Config.mk [[100]] false [] [117] [98]).GetCronSchedule = DefaultCronSchedule ∧
      mainRunsScheduler (Config.mk [[100]] false [] [117] [98]) = true :=
  getCronSchedule_empty_enters_scheduler _ rfl

/-- Any positive number of `Stop` calls leaves the lifecycle settled:
channel closed, `Once` fired, exactly one `close` executed. -/
theorem stopN_succ (n : Nat) : stopN (n + 1) = some ⟨true, true, 1⟩ := by
  induction n with
  | zero => rfl
  | succ m ih => rw [stopN, ih]; rfl

/-- Claim C4: any number of `Stop` calls on a `Service` is safe — no call
panics (the `sync.Once` guard means `close(s.stopCh)` executes exactly once,
never on an already-closed channel), and after the first `Stop` a `Start`
blocked on the stop signal unblocks and returns a nil error. -/
theorem stop_idempotent (n : Nat) :
    (stopN n).isSome = true ∧ stopN (n + 1) = some ⟨true, true, 1⟩ ∧
      startAwaitStop ⟨true, true, 1⟩ = some none := by
  refine ⟨?_, stopN_succ n, rfl⟩
  cases n with
  | zero => rfl
  | succ m => rw [stopN_succ m]; rfl

/-- Claim C8: with the cancellation signal already raised before the pass
and at least one configured directory, `Backup` returns an error in which
`context.Canceled` is identifiable by `errors.Is`, performs no upload at
all, and collection returns a nil file list rather than a partial one. -/
theorem backup_precancelled (sys : Sys) (svc : Service)
    (h : svc.backupDirs ≠ []) :
    ∃ e, Backup sys svc true = ([], some e) ∧
      errorIs e (.base .ctxCanceled) = true ∧
      (collectAllFiles sys svc true).1 = [] := by
  refine ⟨.wrap "s3.Service.Backup: failed to collect files"
    (.wrap "s3.Service.collectAllFiles" (.base .ctxCanceled)), ?_, ?_, ?_⟩
  · cases hd : svc.backupDirs with
    | nil => exact absurd hd h
    | cons d ds => simp [Backup, collectAllFiles, hd, collectLoop]
  · decide
  · cases hd : svc.backupDirs with
    | nil => exact absurd hd h
    | cons d ds => simp [collectAllFiles, hd, collectLoop]

/-- Claim C8 witness: a concrete service with one configured directory and
a pre-cancelled context. -/
theorem backup_precancelled_witness :
    ∃ e,
      Backup
          ⟨fun _ => some (.dir (.file [97] .done)), fun _ => none, fun _ => ⟨2025, 1, 1, 0, 0, 0, 0⟩⟩
          ⟨fun _ => none, [98], [[100]], false, []⟩ true = ([], some e) ∧
        errorIs e (.base .ctxCanceled) = true ∧
        (collectAllFiles
            ⟨fun _ => some (.dir (.file [97] .done)), fun _ => none, fun _ => ⟨2025, 1, 1, 0, 0, 0, 0⟩⟩
            ⟨fun _ => none, [98], [[100]], false, []⟩ true).1 = [] :=
  backup_precancelled _ _ (by decide)

/-- Claim C9 counterexample: the configured directory list is not
de-duplicated — `parseCommaSeparated` keeps a repeated path, and a pass
collects from each occurrence, so the same directory's file appears twice
in one pass's file list, contradicting "collected from at most once per
backup pass". -/
theorem duplicate_dir_collected_twice :
    parseCommaSeparated [97, 44, 97] = [[97], [97]] ∧
      (collectAllFiles
          ⟨fun p => if p = [97] then some (.dir (.file [102] .done)) else none,
            fun _ => none, fun _ => ⟨2025, 1, 1, 0, 0, 0, 0⟩⟩
          ⟨fun _ => none, [98], [[97], [97]], false, []⟩ false).1 =
        [[97, 47, 102], [97, 47, 102]] := by
  constructor
  · rfl
  · decide

/-- The collection loop over error-free directories concatenates, in
configured order, one collection result per list occurrence. -/
theorem collectLoop_all_ok (sys : Sys) (recursive : Bool) (g : Str → List Str) :
    ∀ (ds : List Str) (acc : List Str),
      (∀ d ∈ ds, collectFilesFromDir sys false d recursive = .ok (g d)) →
      collectLoop sys false recursive ds acc none = (acc ++ ds.flatMap g, none) := by
  intro ds
  induction ds with
  | nil => intro acc _; simp [collectLoop]
  | cons d ds ih =>
    intro acc h
    rw [collectLoop]
    simp only [Bool.false_eq_true, if_false, h d (List.mem_cons_self d ds)]
    rw [ih (acc ++ g d) (fun d' hd' => h d' (List.mem_cons_of_mem d hd'))]
    simp

/-- Claim C9 (amended): the backup target directories are kept exactly as
configured — trimmed, with empty entries dropped, but not de-duplicated —
and one pass collects from every list occurrence independently: when every
listed directory collects without error, the pass's file list is the
concatenation of one collection per occurrence, so a directory listed twice
contributes its files twice. -/
theorem collectAllFiles_per_occurrence (sys : Sys) (svc : Service) (g : Str → List Str)
    (h : ∀ d ∈ svc.backupDirs, collectFilesFromDir sys false d svc.recursive = .ok (g d)) :
    collectAllFiles sys svc false = (svc.backupDirs.flatMap g, none) := by
  unfold collectAllFiles
  rw [collectLoop_all_ok sys svc.recursive g svc.backupDirs [] h]
  simp

/-- Claim C9 (amended) witness: the duplicated concrete directory, each
occurrence contributing its file. -/
theorem collectAllFiles_per_occurrence_witness :
    collectAllFiles
        ⟨fun p => if p = [97] then some (.dir (.file [102] .done)) else none,
          fun _ => none, fun _ => ⟨2025, 1, 1, 0, 0, 0, 0⟩⟩
        ⟨fun _ => none, [98], [[97], [97]], false, []⟩ false =
      ([[97], [97]].flatMap (fun _ => [[97, 47, 102]]), none) :=
  collectAllFiles_per_occurrence _ _ (fun _ => [[97, 47, 102]])
    (by intro d hd; simp only [List.mem_cons, List.not_mem_nil, or_false] at hd
        rcases hd with h | h <;> (subst h; rfl))

/-- A walk with recursion enabled aborts with an error whenever the forest
contains an entry whose access fails, wherever it sits and however many
files were appended before it. -/
theorem walkFs_error_of_hasBad (rootDir : Str) :
    ∀ (cs : Fs) (p : Str) (acc : List Str), hasBad cs = true →
      ∃ e, walkFs false true rootDir p acc cs = .error e := by
  intro cs
  induction cs with
  | done => intro p acc h; simp [hasBad] at h
  | file n rest ih =>
    intro p acc h
    rw [hasBad] at h
    simpa only [walkFs, Bool.false_eq_true, if_false] using ih p (acc ++ [pathJoin p n]) h
  | bad n e rest ih =>
    intro p acc _
    exact ⟨_, rfl⟩
  | dir n children rest ih1 ih2 =>
    intro p acc h
    rw [hasBad, Bool.or_eq_true] at h
    rw [walkFs]
    simp only [Bool.not_true, Bool.false_and, Bool.false_eq_true, if_false]
    rcases h with h | h
    · obtain ⟨e, he⟩ := ih1 (pathJoin p n) acc h
      rw [he]
      exact ⟨e, rfl⟩
    · cases hw : walkFs false true rootDir (pathJoin p n) acc children with
      | error e => exact ⟨e, rfl⟩
      | ok acc' => exact ih2 p acc' h

/-- Claim C10: collection failure granularity is the whole directory — if
a recursive traversal of a directory's contents hits any entry whose
access fails, `collectFilesFromDir` returns an error and no file list, so
files discovered before the failure are dropped for that pass. -/
theorem collectFilesFromDir_error_of_hasBad (sys : Sys) (dir : Str) (cs : Fs)
    (hfs : sys.fs dir = some (.dir cs)) (hbad : hasBad cs = true) :
    ∃ e, collectFilesFromDir sys false dir true = .error e := by
  unfold collectFilesFromDir
  by_cases hd : dir = []
  · simp [hd]
  · simp only [hd, if_false]
    unfold goWalkDir
    rw [hfs]
    simp only [Bool.false_eq_true, if_false]
    obtain ⟨e, he⟩ := walkFs_error_of_hasBad dir cs dir [] hbad
    rw [he]
    exact ⟨_, rfl⟩

/-- Claim C10 witness: a directory whose walk finds one file, then an
entry with an access failure — collection reports the error and returns no
files, including the one already discovered. -/
theorem collectFilesFromDir_error_of_hasBad_witness :
    ∃ e, collectFilesFromDir
        ⟨fun p => if p = [100] then
            some (.dir (.file [97] (.bad [98] (.base (.other 7)) (.file [99] .done)))) else none,
          fun _ => none, fun _ => ⟨2025, 1, 1, 0, 0, 0, 0⟩⟩
        false [100] true = .error e :=
  collectFilesFromDir_error_of_hasBad _ [100]
    (.file [97] (.bad [98] (.base (.other 7)) (.file [99] .done))) (by decide) (by decide)

/-- Every `PutObject` call emitted by `backupFile` carries the key built
from the file's derived S3 key and the `time.Now()` reading of that call. -/
theorem backupFile_calls (sys : Sys) (svc : Service) (f : Str) (t : GoTime) :
    ∀ c ∈ (backupFile sys svc f t).1,
      ∃ k, buildS3Key svc f = .ok k ∧ c = ⟨svc.bucketName, buildObjectKey k t⟩ := by
  intro c hc
  unfold backupFile at hc
  by_cases hf : f = []
  · simp [hf] at hc
  · simp only [hf, if_false] at hc
    cases ho : sys.openErr f with
    | some e => rw [ho] at hc; simp at hc
    | none =>
      rw [ho] at hc
      cases hk : buildS3Key svc f with
      | error e => rw [hk] at hc; simp at hc
      | ok k =>
        rw [hk] at hc
        simp only at hc
        cases hcl : svc.client ⟨svc.bucketName, buildObjectKey k t⟩ with
        | some e =>
          rw [hcl] at hc
          simp only [List.mem_singleton] at hc
          exact ⟨k, rfl, hc⟩
        | none =>
          rw [hcl] at hc
          simp only [List.mem_singleton] at hc
          exact ⟨k, rfl, hc⟩

/-- Every call recorded by the upload loop either was already in the
accumulator or originates from one of the looped-over files via
`buildS3Key` and a `time.Now()` reading. -/
theorem backupLoop_calls_origin (sys : Sys) (svc : Service) (ctx : Bool) :
    ∀ (files : List Str) (i : Nat) (joined : Option GoError) (acc : List PutCall),
      ∀ c ∈ (backupLoop sys svc ctx files i joined acc).1,
        c ∈ acc ∨ ∃ j f k, f ∈ files ∧ buildS3Key svc f = .ok k ∧
          c = ⟨svc.bucketName, buildObjectKey k (sys.clock j)⟩ := by
  intro files
  induction files with
  | nil => intro i joined acc c hc; rw [backupLoop] at hc; exact .inl hc
  | cons f fs ih =>
    intro i joined acc c hc
    rw [backupLoop] at hc
    by_cases hctx : ctx
    · rw [if_pos hctx] at hc; exact .inl hc
    · rw [if_neg hctx] at hc
      rcases hbf : backupFile sys svc f (sys.clock i) with ⟨newCalls, err⟩
      rw [hbf] at hc
      have hsplit : ∀ c', c' ∈ acc ++ newCalls →
          c' ∈ acc ∨ ∃ j f' k, f' ∈ f :: fs ∧ buildS3Key svc f' = .ok k ∧
            c' = ⟨svc.bucketName, buildObjectKey k (sys.clock j)⟩ := by
        intro c' hc'
        rcases List.mem_append.mp hc' with h | h
        · exact .inl h
        · obtain ⟨k, hk, hck⟩ := backupFile_calls sys svc f (sys.clock i) c' (hbf ▸ h)
          exact .inr ⟨i, f, k, List.mem_cons_self f fs, hk, hck⟩
      cases err with
      | some e =>
        rcases ih (i + 1) (joinOpt joined e) (acc ++ newCalls) c hc with h | ⟨j, f', k, hf', hk, hck⟩
        · exact hsplit c h
        · exact .inr ⟨j, f', k, List.mem_cons_of_mem f hf', hk, hck⟩
      | none =>
        rcases ih (i + 1) joined (acc ++ newCalls) c hc with h | ⟨j, f', k, hf', hk, hck⟩
        · exact hsplit c h
        · exact .inr ⟨j, f', k, List.mem_cons_of_mem f hf', hk, hck⟩

/-- Every `PutObject` call of a whole pass originates from a collected file
via `buildS3Key` and a per-call `time.Now()` reading. -/
theorem Backup_calls_origin (sys : Sys) (svc : Service) (ctx : Bool) :
    ∀ c ∈ (Backup sys svc ctx).1,
      ∃ j f k, f ∈ (collectAllFiles sys svc ctx).1 ∧ buildS3Key svc f = .ok k ∧
        c = ⟨svc.bucketName, buildObjectKey k (sys.clock j)⟩ := by
  intro c hc
  unfold Backup at hc
  rcases hcol : collectAllFiles sys svc ctx with ⟨files, err⟩
  rw [hcol] at hc
  cases err with
  | some e => simp at hc
  | none =>
    simp only at hc
    unfold backupAllFiles at hc
    by_cases hemp : files.isEmpty
    · rw [if_pos hemp] at hc; simp at hc
    · rw [if_neg hemp] at hc
      rcases backupLoop_calls_origin sys svc ctx files 0 none [] c hc with h | ⟨j, f, k, hf, hk, hck⟩
      · simp at h
      · exact ⟨j, f, k, by simpa using hf, hk, hck⟩

/-- Claim C1 counterexample: `backupFile` stamps each key with its own
`time.Now()` reading (`key := buildObjectKey(s3Key, time.Now())` is inside
the per-file call, not fixed at the start of the pass), so one pass whose
two uploads happen in different wall-clock seconds produces two different
timestamp prefixes. -/
theorem pass_timestamp_prefixes_differ :
    ((Backup
          ⟨fun p => if p = [100] then some (.dir (.file [97] (.file [98] .done))) else none,
            fun _ => none, fun i => ⟨2025, 1, 2, 3, 4, i, 0⟩⟩
          ⟨fun _ => none, [107], [[100]], false, []⟩ false).1.map
        (fun c => c.key.takeWhile (fun b => b != 47))) =
      [formatTs ⟨2025, 1, 2, 3, 4, 0, 0⟩, formatTs ⟨2025, 1, 2, 3, 4, 1, 0⟩] ∧
      formatTs ⟨2025, 1, 2, 3, 4, 0, 0⟩ ≠ formatTs ⟨2025, 1, 2, 3, 4, 1, 0⟩ := by
  constructor
  · decide
  · decide

/-- Taking up to the first slash of a slash-prefixed key recovers the
slash-free prefix. -/
theorem takeWhile_append_slash (a x : Str) (ha : 47 ∉ a) :
    (a ++ 47 :: x).takeWhile (fun b => b != 47) = a := by
  induction a with
  | nil => simp [List.takeWhile_cons]
  | cons c a' ih =>
    have hc : c ≠ 47 := fun hc => ha (hc ▸ List.mem_cons_self c a')
    have ha' : 47 ∉ a' := fun hm => ha (List.mem_cons_of_mem c hm)
    simp [List.takeWhile_cons, hc, ih ha']

/-- The rendered timestamp depends only on the whole-second fields: two
instants in the same second (nanoseconds free) render identically. -/
theorem formatTs_congr (t1 t2 : GoTime) (h : sameSecond t1 t2) :
    formatTs t1 = formatTs t2 := by
  obtain ⟨y1, mo1, d1, h1, mi1, s1, ns1⟩ := t1
  obtain ⟨y2, mo2, d2, h2, mi2, s2, ns2⟩ := t2
  obtain ⟨ey, emo, ed, eh, emi, es⟩ := h
  simp only at ey emo ed eh emi es
  subst ey emo ed eh emi es
  rfl

/-- The upload loop only ever appends to the call trace it is given. -/
theorem backupLoop_acc_prefix (sys : Sys) (svc : Service) (ctx : Bool) :
    ∀ (files : List Str) (i : Nat) (joined : Option GoError) (acc : List PutCall),
      ∃ nc, (backupLoop sys svc ctx files i joined acc).1 = acc ++ nc := by
  intro files
  induction files with
  | nil => intro i joined acc; exact ⟨[], by simp [backupLoop]⟩
  | cons f fs ih =>
    intro i joined acc
    rw [backupLoop]
    by_cases hctx : ctx
    · rw [if_pos hctx]; exact ⟨[], by simp⟩
    · rw [if_neg hctx]
      rcases hbf : backupFile sys svc f (sys.clock i) with ⟨newCalls, err⟩
      cases err with
      | some e =>
        obtain ⟨nc, hnc⟩ := ih (i + 1) (joinOpt joined e) (acc ++ newCalls)
        exact ⟨newCalls ++ nc, by rw [hnc, List.append_assoc]⟩
      | none =>
        obtain ⟨nc, hnc⟩ := ih (i + 1) joined (acc ++ newCalls)
        exact ⟨newCalls ++ nc, by rw [hnc, List.append_assoc]⟩

/-- On a nonempty, openable file with a derivable S3 key, `backupFile`
makes exactly one `PutObject` call and its result is the client's answer,
wrapped on failure. -/
theorem backupFile_ok_spec (sys : Sys) (svc : Service) (f : Str) (t : GoTime)
    (hf : f ≠ []) (ho : sys.openErr f = none) (k : Str) (hk : buildS3Key svc f = .ok k) :
    backupFile sys svc f t = ([⟨svc.bucketName, buildObjectKey k t⟩],
      (svc.client ⟨svc.bucketName, buildObjectKey k t⟩).map
        (.wrap "s3.Service.backupFile: failed to put object to S3")) := by
  unfold backupFile
  rw [if_neg hf, ho, hk]
  cases hcl : svc.client ⟨svc.bucketName, buildObjectKey k t⟩ <;> simp [hcl]

/-- The upload loop over well-formed files, positionally: it makes exactly
one `PutObject` call per file, and the `m`-th call is stamped with the
`m`-th `time.Now()` reading of the loop. -/
theorem backupLoop_pointwise (sys : Sys) (svc : Service) :
    ∀ (files : List Str) (i : Nat) (joined : Option GoError) (acc : List PutCall),
      (∀ f ∈ files, f ≠ [] ∧ sys.openErr f = none ∧ (buildS3Key svc f).isOk = true) →
      (backupLoop sys svc false files i joined acc).1.length = acc.length + files.length ∧
      ∀ m f, files.get? m = some f →
        ∃ k, buildS3Key svc f = .ok k ∧
          (backupLoop sys svc false files i joined acc).1.get? (acc.length + m) =
            some ⟨svc.bucketName, buildObjectKey k (sys.clock (i + m))⟩ := by
  intro files
  induction files with
  | nil =>
    intro i joined acc _
    constructor
    · simp [backupLoop]
    · intro m f hm; simp at hm
  | cons f0 fs ih =>
    intro i joined acc h
    obtain ⟨hf0, ho0, hok0⟩ := h f0 (List.mem_cons_self f0 fs)
    obtain ⟨k0, hk0⟩ : ∃ k, buildS3Key svc f0 = .ok k := by
      cases hk : buildS3Key svc f0 with
      | error e => rw [hk] at hok0; simp [Except.isOk, Except.toBool] at hok0
      | ok k => exact ⟨k, rfl⟩
    have hrest : ∀ f' ∈ fs, f' ≠ [] ∧ sys.openErr f' = none ∧ (buildS3Key svc f').isOk = true :=
      fun f' hf' => h f' (List.mem_cons_of_mem f0 hf')
    have cont : ∀ J : Option GoError,
        (backupLoop sys svc false fs (i + 1) J
            (acc ++ [⟨svc.bucketName, buildObjectKey k0 (sys.clock i)⟩])).1.length =
          acc.length + (f0 :: fs).length ∧
        ∀ m f, (f0 :: fs).get? m = some f →
          ∃ k, buildS3Key svc f = .ok k ∧
            (backupLoop sys svc false fs (i + 1) J
                (acc ++ [⟨svc.bucketName, buildObjectKey k0 (sys.clock i)⟩])).1.get?
              (acc.length + m) =
              some ⟨svc.bucketName, buildObjectKey k (sys.clock (i + m))⟩ := by
      intro J
      obtain ⟨hlen, hget⟩ := ih (i + 1) J
        (acc ++ [⟨svc.bucketName, buildObjectKey k0 (sys.clock i)⟩]) hrest
      constructor
      · rw [hlen]; simp [List.length_append]; omega
      · intro m f hm
        cases m with
        | zero =>
          have hf0f : f0 = f := Option.some.inj hm
          refine ⟨k0, hf0f ▸ hk0, ?_⟩
          obtain ⟨nc, hnc⟩ := backupLoop_acc_prefix sys svc false fs (i + 1) J
            (acc ++ [⟨svc.bucketName, buildObjectKey k0 (sys.clock i)⟩])
          rw [hnc, Nat.add_zero, Nat.add_zero]
          rw [List.get?_append (by simp [List.length_append])]
          exact List.get?_concat_length acc _
        | succ m' =>
          obtain ⟨k, hk, hget'⟩ := hget m' f hm
          refine ⟨k, hk, ?_⟩
          have h1 : acc.length + (m' + 1) =
              (acc ++ [(⟨svc.bucketName, buildObjectKey k0 (sys.clock i)⟩ : PutCall)]).length +
                m' := by
            simp [List.length_append]; omega
          have h2 : i + (m' + 1) = i + 1 + m' := by omega
          rw [h1, h2]
          exact hget'
    rw [backupLoop]
    simp only [Bool.false_eq_true, if_false]
    rw [backupFile_ok_spec sys svc f0 (sys.clock i) hf0 ho0 k0 hk0]
    cases hcl : svc.client ⟨svc.bucketName, buildObjectKey k0 (sys.clock i)⟩ with
    | none =>
      simp only [Option.map_none']
      exact cont joined
    | some e =>
      simp only [Option.map_some']
      exact cont (joinOpt joined (.wrap "s3.Service.backupFile: failed to put object to S3" e))

/-- Claim C1 (amended): the destination-key timestamp is taken per file —
the `m`-th attempted upload of a pass is stamped with the `m`-th
`time.Now()` reading taken inside `backupFile` — and the keys of one pass
all begin with one identical timestamp prefix iff the readings used render
the same second: if every reading agrees with one instant at second
granularity (nanoseconds free) then every key starts with that one
rendered prefix, and conversely two uploads whose keys share their first
slash-separated segment had readings in the same rendered second. -/
theorem backup_per_file_timestamp (sys : Sys) (svc : Service)
    (hclock : ∀ i, boundedTime (sys.clock i))
    (hf : ∀ f ∈ (collectAllFiles sys svc false).1,
      f ≠ [] ∧ sys.openErr f = none ∧ (buildS3Key svc f).isOk = true) :
    (∀ m f, (collectAllFiles sys svc false).2 = none →
      (collectAllFiles sys svc false).1.get? m = some f →
      ∃ k, buildS3Key svc f = .ok k ∧
        (Backup sys svc false).1.get? m =
          some ⟨svc.bucketName, buildObjectKey k (sys.clock m)⟩) ∧
    (∀ t0, (∀ i, sameSecond (sys.clock i) t0) →
      ∀ c ∈ (Backup sys svc false).1, ∃ rest, c.key = formatTs t0 ++ 47 :: rest) ∧
    (∀ m1 m2 c1 c2, (collectAllFiles sys svc false).2 = none →
      (Backup sys svc false).1.get? m1 = some c1 →
      (Backup sys svc false).1.get? m2 = some c2 →
      c1.key.takeWhile (fun b => b != 47) = c2.key.takeWhile (fun b => b != 47) →
      sameSecond (sys.clock m1) (sys.clock m2)) := by
  rcases hcol : collectAllFiles sys svc false with ⟨files, err⟩
  have hfiles : ∀ f ∈ files, f ≠ [] ∧ sys.openErr f = none ∧ (buildS3Key svc f).isOk = true := by
    intro f hmem
    exact hf f (by rw [hcol]; simpa using hmem)
  have ha : ∀ m f, err = none → files.get? m = some f →
      ∃ k, buildS3Key svc f = .ok k ∧
        (Backup sys svc false).1.get? m =
          some ⟨svc.bucketName, buildObjectKey k (sys.clock m)⟩ := by
    intro m f herr hm
    subst herr
    have hne : files ≠ [] := by
      intro h0; rw [h0] at hm; simp at hm
    unfold Backup
    rw [hcol]
    simp only
    unfold backupAllFiles
    rw [if_neg (by simpa [List.isEmpty_iff] using hne)]
    obtain ⟨_, hget⟩ := backupLoop_pointwise sys svc files 0 none [] hfiles
    obtain ⟨k, hk, hget'⟩ := hget m f hm
    refine ⟨k, hk, ?_⟩
    simpa using hget'
  have hlenB : err = none → files ≠ [] →
      (Backup sys svc false).1.length = files.length := by
    intro herr hne
    subst herr
    unfold Backup
    rw [hcol]
    simp only
    unfold backupAllFiles
    rw [if_neg (by simpa [List.isEmpty_iff] using hne)]
    obtain ⟨hlen, _⟩ := backupLoop_pointwise sys svc files 0 none [] hfiles
    simpa using hlen
  refine ⟨?_, ?_, ?_⟩
  · intro m f herr hm
    exact ha m f herr hm
  · intro t0 hsame c hc
    obtain ⟨j, f, k, _, _, hck⟩ := Backup_calls_origin sys svc false c hc
    refine ⟨k, ?_⟩
    rw [hck]
    simp only [buildObjectKey, formatTs_congr (sys.clock j) t0 (hsame j)]
    rfl
  · intro m1 m2 c1 c2 herr h1 h2 hseg
    simp only at herr
    have hne : files ≠ [] := by
      intro h0
      subst herr
      rw [show (Backup sys svc false).1 = [] from ?_] at h1
      · simp at h1
      · unfold Backup
        rw [hcol]
        simp only
        rw [h0]
        rfl
    have hlen := hlenB herr hne
    have hx : ∀ m c, (Backup sys svc false).1.get? m = some c →
        ∃ f k, files.get? m = some f ∧ buildS3Key svc f = .ok k ∧
          c = ⟨svc.bucketName, buildObjectKey k (sys.clock m)⟩ := by
      intro m c hmc
      have hmlt : m < files.length := by
        by_contra hge
        have : (Backup sys svc false).1.get? m = none := by
          rw [List.get?_eq_none]
          omega
        rw [this] at hmc
        exact Option.noConfusion hmc
      obtain ⟨f, hfm⟩ : ∃ f, files.get? m = some f := by
        cases hg : files.get? m with
        | none => rw [List.get?_eq_none] at hg; omega
        | some f => exact ⟨f, rfl⟩
      obtain ⟨k, hk, hget'⟩ := ha m f herr hfm
      rw [hget'] at hmc
      exact ⟨f, k, hfm, hk, (Option.some.inj hmc).symm⟩
    obtain ⟨f1, k1, _, _, hc1⟩ := hx m1 c1 h1
    obtain ⟨f2, k2, _, _, hc2⟩ := hx m2 c2 h2
    rw [hc1, hc2] at hseg
    simp only [buildObjectKey] at hseg
    have hfix : ∀ (t : GoTime) (k : Str),
        (formatTs t ++ [47] ++ k).takeWhile (fun b => b != 47) = formatTs t := by
      intro t k
      have : formatTs t ++ [47] ++ k = formatTs t ++ 47 :: k := by simp
      rw [this]
      exact takeWhile_append_slash _ _ (slash_not_mem_formatTs t)
    rw [hfix, hfix] at hseg
    exact formatTs_inj _ _ (hclock m1) (hclock m2) hseg

/-- The ambient world for the claim-C1 witness: two files under one
directory and a clock that stays inside one second for the whole pass but
whose readings differ in their nanosecond component. -/
def sysNsec : Sys :=
  ⟨fun p => if p = [100] then some (.dir (.file [97] (.file [98] .done))) else none,
    fun _ => none, fun i => ⟨2025, 1, 2, 3, 4, 5, i⟩⟩

/-- The service for the claim-C1 witness. -/
def svcTwo : Service :=
  ⟨fun _ => none, [107], [[100]], false, []⟩

/-- Claim C1 (amended) witness: a two-file pass whose readings share the
second but not the nanosecond — the first upload is stamped with the first
reading, its key starts with the shared rendered prefix, and the two
uploads' equal first segments certify same-second readings. -/
theorem backup_per_file_timestamp_witness :
    (∃ k, buildS3Key svcTwo [100, 47, 97] = .ok k ∧
      (Backup sysNsec svcTwo false).1.get? 0 =
        some ⟨svcTwo.bucketName, buildObjectKey k (sysNsec.clock 0)⟩) ∧
    (∃ rest, (PutCall.mk [107] (buildObjectKey [100, 47, 97] ⟨2025, 1, 2, 3, 4, 5, 0⟩)).key =
      formatTs ⟨2025, 1, 2, 3, 4, 5, 0⟩ ++ 47 :: rest) ∧
    sameSecond (sysNsec.clock 0) (sysNsec.clock 1) := by
  have T := backup_per_file_timestamp sysNsec svcTwo
    (fun _ => ⟨show (2025 : Nat) < 10000 by decide, show (1 : Nat) < 100 by decide,
      show (2 : Nat) < 100 by decide, show (3 : Nat) < 100 by decide,
      show (4 : Nat) < 100 by decide, show (5 : Nat) < 100 by decide⟩)
    (by decide)
  refine ⟨T.1 0 [100, 47, 97] (by decide) (by decide), ?_, ?_⟩
  · exact T.2.1 ⟨2025, 1, 2, 3, 4, 5, 0⟩ (fun _ => ⟨rfl, rfl, rfl, rfl, rfl, rfl⟩)
      ⟨[107], buildObjectKey [100, 47, 97] ⟨2025, 1, 2, 3, 4, 5, 0⟩⟩ (by decide)
  · exact T.2.2 0 1
      ⟨[107], buildObjectKey [100, 47, 97] ⟨2025, 1, 2, 3, 4, 5, 0⟩⟩
      ⟨[107], buildObjectKey [100, 47, 98] ⟨2025, 1, 2, 3, 4, 5, 1⟩⟩
      (by decide) (by decide) (by decide) (by decide)

/-- Claim C2 counterexample: with one failing directory (`b`, not found)
and one healthy directory (`g`) whose file is successfully collected,
`Backup` returns the collection error but performs no `PutObject` call at
all — the collected file is not uploaded, because `Backup` returns as soon
as `collectAllFiles` reports a non-nil error. -/
theorem collect_error_skips_all_uploads :
    (collectAllFiles
          ⟨fun p => if p = [103] then some (.dir (.file [97] .done)) else none,
            fun _ => none, fun _ => ⟨2025, 1, 2, 3, 4, 5, 0⟩⟩
          ⟨fun _ => none, [107], [[98], [103]], false, []⟩ false).1 = [[103, 47, 97]] ∧
      (Backup
          ⟨fun p => if p = [103] then some (.dir (.file [97] .done)) else none,
            fun _ => none, fun _ => ⟨2025, 1, 2, 3, 4, 5, 0⟩⟩
          ⟨fun _ => none, [107], [[98], [103]], false, []⟩ false).1 = [] ∧
      (Backup
          ⟨fun p => if p = [103] then some (.dir (.file [97] .done)) else none,
            fun _ => none, fun _ => ⟨2025, 1, 2, 3, 4, 5, 0⟩⟩
          ⟨fun _ => none, [107], [[98], [103]], false, []⟩ false).2.isSome = true := by
  refine ⟨?_, ?_, ?_⟩ <;> decide

/-- If some configured directory cannot be stat'ed, the collection loop
ends with a non-nil aggregate in which `os.ErrNotExist` is identifiable. -/
theorem collectLoop_propagates_notExist (sys : Sys) (recursive : Bool) (d : Str)
    (hne : d ≠ []) (hfs : sys.fs d = none) :
    ∀ (ds : List Str) (acc : List Str) (joined : Option GoError),
      (d ∈ ds ∨ ∃ j, joined = some j ∧ errorIs j (.base .errNotExist) = true) →
      ∃ E, (collectLoop sys false recursive ds acc joined).2 = some E ∧
        errorIs E (.base .errNotExist) = true := by
  intro ds
  induction ds with
  | nil =>
    intro acc joined h
    rcases h with h | ⟨j, hj, hij⟩
    · simp at h
    · subst hj
      refine ⟨_, rfl, ?_⟩
      simp [errorIs, hij]
  | cons d' ds ih =>
    intro acc joined h
    rw [collectLoop]
    simp only [Bool.false_eq_true, if_false]
    have hfail : d' = d → collectFilesFromDir sys false d' recursive =
        .error (.wrap "s3.Service.collectFilesFromDir: failed to walk directory"
          (.wrap "s3.fileCollector.walk: error accessing path" (.base .errNotExist))) := by
      intro hdd
      subst hdd
      simp [collectFilesFromDir, hne, goWalkDir, hfs]
    by_cases hdd : d' = d
    · rw [hfail hdd]
      apply ih
      right
      obtain ⟨E0, hE0⟩ := joinOpt_isSome joined
        (.wrap "s3.Service.collectFilesFromDir: failed to walk directory"
          (.wrap "s3.fileCollector.walk: error accessing path" (.base .errNotExist)))
      exact ⟨E0, hE0, errorIs_joinOpt joined _ _ (by decide) E0 hE0⟩
    · have hmem : d ∈ ds ∨ ∃ j, joined = some j ∧ errorIs j (.base .errNotExist) = true := by
        rcases h with h | h
        · rcases List.mem_cons.mp h with h1 | h1
          · exact absurd h1.symm hdd
          · exact .inl h1
        · exact .inr h
      cases hcd : collectFilesFromDir sys false d' recursive with
      | error e' =>
        apply ih
        rcases hmem with h1 | ⟨j, hj, hij⟩
        · exact .inl h1
        · subst hj
          exact .inr ⟨_, rfl, errorIs_joinOpt_left j e' _ hij _ rfl⟩
      | ok fls =>
        exact ih (acc ++ fls) joined hmem

/-- Claim C2 (amended): when any configured directory fails to collect
(here: cannot be stat'ed), `Backup` does not enter the upload phase at all —
it returns no `PutObject` call and reports the aggregate collection error,
in which the failing directory's underlying error is identifiable by
`errors.Is`; the successfully collected files are not uploaded in that
pass. -/
theorem backup_aborts_on_collect_error (sys : Sys) (svc : Service) (d : Str)
    (hd : d ∈ svc.backupDirs) (hne : d ≠ []) (hfs : sys.fs d = none) :
    ∃ E, Backup sys svc false = ([], some E) ∧
      errorIs E (.base .errNotExist) = true := by
  obtain ⟨E, hE, hIs⟩ :=
    collectLoop_propagates_notExist sys svc.recursive d hne hfs svc.backupDirs [] none (.inl hd)
  rcases hcol : collectAllFiles sys svc false with ⟨fls, err⟩
  have herr : err = some E := by
    have := hE
    rw [collectAllFiles] at hcol
    rw [hcol] at this
    exact this
  subst herr
  refine ⟨.wrap "s3.Service.Backup: failed to collect files" E, ?_, ?_⟩
  · unfold Backup
    rw [hcol]
  · simp [errorIs, hIs]

/-- Claim C2 (amended) witness: the concrete failing/healthy directory
pair. -/
theorem backup_aborts_on_collect_error_witness :
    ∃ E, Backup
        ⟨fun p => if p = [103] then some (.dir (.file [97] .done)) else none,
          fun _ => none, fun _ => ⟨2025, 1, 2, 3, 4, 5, 0⟩⟩
        ⟨fun _ => none, [107], [[98], [103]], false, []⟩ false = ([], some E) ∧
      errorIs E (.base .errNotExist) = true :=
  backup_aborts_on_collect_error _ _ [98] (by decide) (by decide) (by decide)

/-- A `filterMap` keeps exactly as many elements as satisfy the
some-test. -/
theorem length_filterMap_eq_length_filter (l : List PutCall) (f : PutCall → Option GoError) :
    (l.filterMap f).length = (l.filter (fun c => (f c).isSome)).length := by
  induction l with
  | nil => rfl
  | cons a l ih => cases h : f a <;> simp [List.filterMap_cons, h, List.filter_cons, ih]

/-- The upload loop over well-formed files: one `PutObject` call per file,
and the aggregate's leaves are exactly the client's rejections of those
calls, in order, appended to the leaves carried in. -/
theorem backupLoop_spec (sys : Sys) (svc : Service)
    (hatom : ∀ c e, svc.client c = some e → leaves e = [e]) :
    ∀ (files : List Str) (i : Nat) (joined : Option GoError) (acc : List PutCall),
      (∀ f ∈ files, f ≠ [] ∧ sys.openErr f = none ∧ (buildS3Key svc f).isOk = true) →
      ∃ nc, (backupLoop sys svc false files i joined acc).1 = acc ++ nc ∧
        nc.length = files.length ∧
        leavesOpt (backupLoop sys svc false files i joined acc).2 =
          leavesOpt joined ++ nc.filterMap (fun c => svc.client c) := by
  intro files
  induction files with
  | nil =>
    intro i joined acc _
    refine ⟨[], by simp [backupLoop], rfl, ?_⟩
    cases joined <;> simp [backupLoop, leavesOpt, leaves]
  | cons f fs ih =>
    intro i joined acc h
    obtain ⟨hf, ho, hok⟩ := h f (List.mem_cons_self f fs)
    obtain ⟨k, hk⟩ : ∃ k, buildS3Key svc f = .ok k := by
      cases hk : buildS3Key svc f with
      | error e => rw [hk] at hok; simp [Except.isOk, Except.toBool] at hok
      | ok k => exact ⟨k, rfl⟩
    have hrest : ∀ f' ∈ fs, f' ≠ [] ∧ sys.openErr f' = none ∧ (buildS3Key svc f').isOk = true :=
      fun f' hf' => h f' (List.mem_cons_of_mem f hf')
    rw [backupLoop]
    simp only [Bool.false_eq_true, if_false]
    rw [backupFile_ok_spec sys svc f (sys.clock i) hf ho k hk]
    cases hcl : svc.client ⟨svc.bucketName, buildObjectKey k (sys.clock i)⟩ with
    | none =>
      simp only [Option.map_none']
      obtain ⟨nc, h1, h2, h3⟩ := ih (i + 1) joined
        (acc ++ [⟨svc.bucketName, buildObjectKey k (sys.clock i)⟩]) hrest
      refine ⟨⟨svc.bucketName, buildObjectKey k (sys.clock i)⟩ :: nc, ?_, by simp [h2], ?_⟩
      · rw [h1]; simp
      · rw [h3, List.filterMap_cons, hcl]
    | some e =>
      simp only [Option.map_some']
      obtain ⟨nc, h1, h2, h3⟩ := ih (i + 1)
        (joinOpt joined (.wrap "s3.Service.backupFile: failed to put object to S3" e))
        (acc ++ [⟨svc.bucketName, buildObjectKey k (sys.clock i)⟩]) hrest
      refine ⟨⟨svc.bucketName, buildObjectKey k (sys.clock i)⟩ :: nc, ?_, by simp [h2], ?_⟩
      · rw [h1]; simp
      · rw [h3, leavesOpt_joinOpt, List.filterMap_cons, hcl]
        simp [leaves, hatom _ _ hcl]

/-- Claim C5: over any file list where the only failures are client
rejections (each file nonempty, openable, with a derivable key; client
errors atomic), `backupAllFiles` attempts one `PutObject` per file — it
never aborts the upload phase because a file failed — and its aggregate
error's underlying failures are exactly the rejected calls' errors: as many
failures as rejections, each identifiable in the aggregate by
`errors.Is`. -/
theorem backupAllFiles_partial_failure (sys : Sys) (svc : Service) (files : List Str)
    (hf : ∀ f ∈ files, f ≠ [] ∧ sys.openErr f = none ∧ (buildS3Key svc f).isOk = true)
    (hatom : ∀ c e, svc.client c = some e → leaves e = [e]) :
    (backupAllFiles sys svc false files).1.length = files.length ∧
      leavesOpt (backupAllFiles sys svc false files).2 =
        (backupAllFiles sys svc false files).1.filterMap (fun c => svc.client c) ∧
      (leavesOpt (backupAllFiles sys svc false files).2).length =
        ((backupAllFiles sys svc false files).1.filter
          (fun c => (svc.client c).isSome)).length ∧
      ∀ E, (backupAllFiles sys svc false files).2 = some E →
        ∀ c ∈ (backupAllFiles sys svc false files).1, ∀ e, svc.client c = some e →
          errorIs E e = true := by
  have hmain : (backupAllFiles sys svc false files).1.length = files.length ∧
      leavesOpt (backupAllFiles sys svc false files).2 =
        (backupAllFiles sys svc false files).1.filterMap (fun c => svc.client c) := by
    unfold backupAllFiles
    by_cases hemp : files.isEmpty
    · rw [if_pos hemp]
      rcases files with _ | ⟨f, fs⟩
      · simp [leavesOpt]
      · simp [List.isEmpty] at hemp
    · rw [if_neg hemp]
      obtain ⟨nc, h1, h2, h3⟩ := backupLoop_spec sys svc hatom files 0 none [] hf
      rw [h1, h3]
      simp [h2, leavesOpt]
  refine ⟨hmain.1, hmain.2, ?_, ?_⟩
  · rw [hmain.2]
    exact length_filterMap_eq_length_filter _ _
  · intro E hE c hc e hcl
    have hmem : e ∈ leavesOpt (backupAllFiles sys svc false files).2 := by
      rw [hmain.2]
      exact List.mem_filterMap.mpr ⟨c, hc, hcl⟩
    rw [hE] at hmem
    exact errorIs_of_mem_leaves E e hmem

/-- The concrete upload-phase scenario for the claim-C5 witness: five
files under directory `d`, a client that rejects the keys ending in the
bytes of `1` and `3`. -/
def svcFive : Service :=
  ⟨fun c => if c.key.getLast? = some 49 then some (.base (.other 1))
    else if c.key.getLast? = some 51 then some (.base (.other 3)) else none,
    [107], [[100]], false, []⟩

/-- The ambient world for the claim-C5 witness. -/
def sysFive : Sys :=
  ⟨fun p => if p = [100] then some (.dir .done) else none,
    fun _ => none, fun _ => ⟨2025, 1, 2, 3, 4, 5, 0⟩⟩

/-- The five files handed to the upload phase in the claim-C5 witness. -/
def filesFive : List Str :=
  [[100, 47, 49], [100, 47, 50], [100, 47, 51], [100, 47, 52], [100, 47, 53]]

/-- Claim C5 witness: five files, two rejected by the client — all five
are attempted, the aggregate carries exactly the two rejections, and each
is identifiable by `errors.Is`. -/
theorem backupAllFiles_partial_failure_witness :
    (backupAllFiles sysFive svcFive false filesFive).1.length = filesFive.length ∧
      leavesOpt (backupAllFiles sysFive svcFive false filesFive).2 =
        (backupAllFiles sysFive svcFive false filesFive).1.filterMap
          (fun c => svcFive.client c) ∧
      (leavesOpt (backupAllFiles sysFive svcFive false filesFive).2).length =
        ((backupAllFiles sysFive svcFive false filesFive).1.filter
          (fun c => (svcFive.client c).isSome)).length ∧
      ∀ E, (backupAllFiles sysFive svcFive false filesFive).2 = some E →
        ∀ c ∈ (backupAllFiles sysFive svcFive false filesFive).1, ∀ e,
          svcFive.client c = some e → errorIs E e = true :=
  backupAllFiles_partial_failure sysFive svcFive filesFive (by decide)
    (by
      intro c e h
      simp only [svcFive] at h
      split at h
      · injection h with h'; subst h'; rfl
      · split at h
        · injection h with h'; subst h'; rfl
        · exact Option.noConfusion h)

/-- The claim-C5 witness scenario really rejects exactly two of the five
files: the pass makes five calls and the aggregate has two leaves. -/
theorem backupAllFiles_partial_failure_witness_concrete :
    (backupAllFiles sysFive svcFive false filesFive).1.length = 5 ∧
      leavesOpt (backupAllFiles sysFive svcFive false filesFive).2 =
        [.base (.other 1), .base (.other 3)] := by
  constructor
  · decide
  · decide

/-- A successful `buildS3Key` comes from some configured directory through
the `filepath.Rel`/`filepath.Join` loop body. -/
theorem buildS3KeyLoop_ok_form (f : Str) :
    ∀ (ds : List Str) (k : Str), buildS3KeyLoop f ds = .ok k →
      ∃ d ∈ ds, ∃ r, goRel d f = some r ∧ k = pathJoin (goBase d) r := by
  intro ds
  induction ds with
  | nil => intro k hk; simp [buildS3KeyLoop] at hk
  | cons d ds ih =>
    intro k hk
    rw [buildS3KeyLoop] at hk
    cases hr : goRel d f with
    | some rel =>
      rw [hr] at hk
      simp only [Except.ok.injEq] at hk
      exact ⟨d, List.mem_cons_self d ds, rel, hr, hk.symm⟩
    | none =>
      rw [hr] at hk
      obtain ⟨d', hd', r, hr', hk'⟩ := ih k hk
      exact ⟨d', List.mem_cons_of_mem d hd', r, hr', hk'⟩

/-- What a usable `filepath.Rel` result is: `.` for equal paths, the
suffix after the leading separator under the root directory, or the suffix
below any other directory. -/
theorem goRel_cases (dir f r : Str) (h : goRel dir f = some r) :
    (f = dir ∧ r = [46]) ∨
      (dir = [47] ∧ ∃ rest, f = 47 :: rest ∧ r = rest) ∨
      (dir ≠ [47] ∧ ∃ rest, f = dir ++ 47 :: rest ∧ r = rest) := by
  unfold goRel at h
  by_cases h1 : f = dir
  · rw [if_pos h1] at h
    exact .inl ⟨h1, (Option.some.inj h).symm⟩
  · rw [if_neg h1] at h
    by_cases hroot : dir = [47]
    · rw [if_pos hroot] at h
      by_cases h2 : [47].isPrefixOf f
      · rw [if_pos h2] at h
        by_cases h3 : [46, 46].isPrefixOf (f.drop 1)
        · rw [if_pos h3] at h
          exact Option.noConfusion h
        · rw [if_neg h3] at h
          obtain ⟨rest, hrest⟩ := List.isPrefixOf_iff_prefix.mp h2
          have hdrop : f.drop 1 = rest := by
            rw [← hrest]
            exact List.drop_left [47] rest
          refine .inr (.inl ⟨hroot, rest, by simpa using hrest.symm, ?_⟩)
          rw [← hdrop]
          exact (Option.some.inj h).symm
      · rw [if_neg h2] at h
        exact Option.noConfusion h
    · rw [if_neg hroot] at h
      by_cases h2 : (dir ++ [47]).isPrefixOf f
      · rw [if_pos h2] at h
        by_cases h3 : [46, 46].isPrefixOf (f.drop (dir.length + 1))
        · rw [if_pos h3] at h
          exact Option.noConfusion h
        · rw [if_neg h3] at h
          obtain ⟨rest, hrest⟩ := List.isPrefixOf_iff_prefix.mp h2
          refine .inr (.inr ⟨hroot, rest, by simpa using hrest.symm, ?_⟩)
          have hdrop : f.drop (dir.length + 1) = rest := by
            rw [← hrest]
            have hlen : (dir ++ [47]).length = dir.length + 1 := by simp
            rw [← hlen, List.drop_left]
          rw [← hdrop]
          exact (Option.some.inj h).symm
      · rw [if_neg h2] at h
        exact Option.noConfusion h

/-- Claim C6 counterexample: the filesystem root `/` is a valid backup
target (`validateDirectories` accepts it), and for it the code does not
produce the claimed `{timestamp}/{directoryBaseName}/{relativePath}` form:
`filepath.Join(Base("/"), rel)` cleans `Base("/") + "/" + rel = "//rel"`
to `"/rel"`, so the emitted key is `{timestamp}//{relativePath}` — its
second slash-separated segment is empty, not the base name `/` (which
would require one more separator). -/
theorem root_dir_key_not_claimed_form :
    ((Backup
          ⟨fun p => if p = [47] then some (.dir (.file [97] .done)) else none,
            fun _ => none, fun _ => ⟨2025, 1, 2, 3, 4, 5, 0⟩⟩
          ⟨fun _ => none, [107], [[47]], false, []⟩ false).1.map (fun c => c.key)) =
        [formatTs ⟨2025, 1, 2, 3, 4, 5, 0⟩ ++ [47, 47, 97]] ∧
      formatTs ⟨2025, 1, 2, 3, 4, 5, 0⟩ ++ [47, 47, 97] ≠
        formatTs ⟨2025, 1, 2, 3, 4, 5, 0⟩ ++ 47 :: (goBase [47] ++ 47 :: [97]) := by
  constructor
  · decide
  · decide

/-- Claim C6 (amended): for configured directories whose base name is not
the bare separator `/`, under a sane filesystem (no collected file path
collides with a configured directory or with degenerate `/`- or
`/.`-suffixed forms of one) and clock readings in rendering range, every
key a pass hands to `PutObject` is
`{timestamp}/{directoryBaseName}/{relativePath}` with a nonempty relative
path: the timestamp is its first slash-separated segment and matches the
specification's `YYYY-MM-DDTHH-MM-SS` shape exactly; the key is a pure
function of the matched directory, the relative path and the clock
reading.  (For a root target `/` the base-name segment degenerates — see
the counterexample.) -/
theorem backup_key_format (sys : Sys) (svc : Service)
    (hclock : ∀ i, boundedTime (sys.clock i))
    (hroot : ∀ d ∈ svc.backupDirs, goBase d ≠ [47])
    (hsane : ∀ f ∈ (collectAllFiles sys svc false).1, ∀ d ∈ svc.backupDirs,
      f ≠ d ∧ f ≠ d ++ [47] ∧ f ≠ d ++ [47, 46]) :
    ∀ c ∈ (Backup sys svc false).1, ∃ t d rel, d ∈ svc.backupDirs ∧ rel ≠ [] ∧
      c.key = formatTs t ++ 47 :: (goBase d ++ 47 :: rel) ∧
      specTimestampShape (formatTs t) = true ∧
      c.key.takeWhile (fun b => b != 47) = formatTs t := by
  intro c hc
  obtain ⟨j, f, k, hfmem, hk, hck⟩ := Backup_calls_origin sys svc false c hc
  obtain ⟨d, hd, r, hr, hkr⟩ := buildS3KeyLoop_ok_form f svc.backupDirs k hk
  obtain ⟨hne1, hne2, hne3⟩ := hsane f hfmem d hd
  rcases goRel_cases d f r hr with ⟨heq, _⟩ | ⟨hd47, _⟩ | ⟨_, rest, hfrest, hrrest⟩
  · exact absurd heq hne1
  · exact absurd (by rw [hd47]; decide) (hroot d hd)
  · rw [hrrest] at hkr
    have hrne : rest ≠ [] := by
      intro h0
      exact hne2 (by rw [hfrest, h0])
    have hrdot : rest ≠ [46] := by
      intro h0
      exact hne3 (by rw [hfrest, h0])
    refine ⟨sys.clock j, d, rest, hd, hrne, ?_, specTimestampShape_formatTs _ (hclock j), ?_⟩
    · rw [hck]
      simp only [buildObjectKey, hkr, pathJoin, if_neg hrdot, if_neg (hroot d hd)]
      simp [List.append_assoc]
    · rw [hck]
      simp only [buildObjectKey]
      have : formatTs (sys.clock j) ++ [47] ++ k = formatTs (sys.clock j) ++ 47 :: k := by
        simp
      rw [this]
      exact takeWhile_append_slash _ _ (slash_not_mem_formatTs _)

/-- The ambient world for the claim-C6 witness: one directory `d` holding
one file `a`, a constant in-range clock. -/
def sysOne : Sys :=
  ⟨fun p => if p = [100] then some (.dir (.file [97] .done)) else none,
    fun _ => none, fun _ => ⟨2025, 1, 2, 3, 4, 5, 0⟩⟩

/-- The service for the claim-C6 witness. -/
def svcOne : Service :=
  ⟨fun _ => none, [107], [[100]], false, []⟩

/-- Claim C6 witness: one non-root directory, one file, a constant
in-range clock — the pass's emitted key decomposes as required. -/
theorem backup_key_format_witness :
    ∃ t d rel, d ∈ svcOne.backupDirs ∧ rel ≠ [] ∧
      (PutCall.mk [107] (buildObjectKey [100, 47, 97] ⟨2025, 1, 2, 3, 4, 5, 0⟩)).key =
        formatTs t ++ 47 :: (goBase d ++ 47 :: rel) ∧
      specTimestampShape (formatTs t) = true ∧
      (PutCall.mk [107] (buildObjectKey [100, 47, 97] ⟨2025, 1, 2, 3, 4, 5, 0⟩)).key.takeWhile
        (fun b => b != 47) = formatTs t :=
  backup_key_format sysOne svcOne
    (fun _ => (by decide : boundedTime ⟨2025, 1, 2, 3, 4, 5, 0⟩)) (by decide) (by decide)
    ⟨[107], buildObjectKey [100, 47, 97] ⟨2025, 1, 2, 3, 4, 5, 0⟩⟩ (by decide)

end S3Backup
